import Mathlib

/-!
Shallow embedding of the tiered blob store in src/db/file.rs.

The module stores files in a relational table `files (path, mime,
date_updated, content)` and, when S3 credentials are configured, offloads
the payload bytes to object storage, leaving the sentinel byte string
"in-s3" in the `content` column.  Retrieval reads the row and, when it
sees the sentinel, fetches the payload from object storage.  A migration
worker moves inline rows to object storage in batches.

Bytes are modelled as `List Nat`; timestamps as `Nat`; the relational
table as a list of rows (the primary key makes paths unique, which
theorems take as a hypothesis where they need it); the S3 bucket as an
association list from object key to object, where an overwriting
`put_object` is modelled by a shadowing prepend.  Filesystem access,
the `magic` content sniffer and S3 upload success are inputs.
-/

namespace DocsRs

/-- The sentinel byte string `b"in-s3"` (bytes of `i n - s 3`) stored in the
`content` column when the payload lives in object storage
(src/db/file.rs lines 75, 205, 245, 276). -/
def inS3 : List Nat := [105, 110, 45, 115, 51]

/-- The environment variables consulted by `s3_client`
(src/db/file.rs lines 106-123): `AWS_ACCESS_KEY_ID` and `S3_ENDPOINT`. -/
structure Env where
  awsAccessKeyId : Option String
  s3Endpoint : Option String
deriving DecidableEq, Repr

/-- The rusoto region chosen by `s3_client` (src/db/file.rs lines 115-121). -/
inductive Region where
  | usWest1
  | custom (endpoint : String)
deriving DecidableEq, Repr

/-- The S3 client handle; only its presence matters downstream. -/
structure S3ClientHandle where
  region : Region
deriving DecidableEq, Repr

/-- `s3_client` (src/db/file.rs lines 106-123): `None` when
`AWS_ACCESS_KEY_ID` is absent (relational-only mode), otherwise a client
whose region is a custom endpoint when `S3_ENDPOINT` is set. -/
def s3_client (env : Env) : Option S3ClientHandle :=
  match env.awsAccessKeyId with
  | none => none
  | some _ =>
    some ⟨match env.s3Endpoint with
          | some e => Region.custom e
          | none => Region.usWest1⟩

/-- An object stored in the `rust-docs-rs` bucket: body bytes plus the
content type sent with `PutObjectRequest`. -/
structure S3Object where
  body : List Nat
  contentType : String
deriving DecidableEq, Repr

/-- The bucket contents: object key to object, newest entry first. -/
abbrev S3Store := List (String × S3Object)

/-- `put_object`: an overwriting write, modelled by a shadowing prepend. -/
def s3Put (s3 : S3Store) (key : String) (o : S3Object) : S3Store :=
  (key, o) :: s3

/-- `get_object`: first (that is, newest) entry for the key. -/
def s3Lookup : S3Store → String → Option S3Object
  | [], _ => none
  | (k, o) :: t, key => if k = key then some o else s3Lookup t key

/-- A row of the `files` table (src/db/file.rs lines 63-64, 209, 214). -/
structure Row where
  path : String
  mime : String
  date_updated : Nat
  content : List Nat
deriving DecidableEq, Repr

/-- The `files` table. -/
abbrev Db := List Row

/-- `SELECT ... FROM files WHERE path = $1`: first row with the given
path (the primary key makes it unique in reachable states). -/
def dbLookup : Db → String → Option Row
  | [], _ => none
  | r :: t, p => if r.path = p then some r else dbLookup t p

/-- The `Blob` struct returned by `get_path` (src/db/file.rs lines 53-58). -/
structure Blob where
  path : String
  mime : String
  date_updated : Nat
  content : List Nat
deriving DecidableEq, Repr

/-- Outcome of `get_path`: `none` row, a blob, or the panic raised by the
`unwrap` on line 94 when the sentinel is present but the object-storage
fetch produces nothing. -/
inductive GetResult where
  | notFound
  | blob (b : Blob)
  | panicked
deriving DecidableEq, Repr

/-- The two storage backends together. -/
structure State where
  db : Db
  s3 : S3Store
deriving DecidableEq, Repr

/-- `get_path` (src/db/file.rs lines 60-104): read the row; when its
content equals the sentinel, fetch the payload from object storage
(`s3_client().and_then(get_object)`), panicking via `unwrap` when no
client is configured or the fetch yields no body; mime and timestamp
always come from the row. -/
def get_path (env : Env) (st : State) (path : String) : GetResult :=
  match dbLookup st.db path with
  | none => .notFound
  | some row =>
    if row.content = inS3 then
      match (s3_client env).bind (fun _ => s3Lookup st.s3 path) with
      | some o => .blob ⟨row.path, row.mime, row.date_updated, o.body⟩
      | none => .panicked
    else
      .blob ⟨row.path, row.mime, row.date_updated, row.content⟩

/-- The upsert of src/db/file.rs lines 202-218: count the rows for the
path (the count query runs on the same connection, hence inside the open
transaction, so it sees staged writes); on zero, `INSERT INTO files
(path, mime, content)`; otherwise `UPDATE files SET mime, content,
date_updated = NOW()`.

Modelled from the spec: the INSERT statement omits `date_updated`, whose
DEFAULT NOW() lives in the schema migrations, which are not part of this
source unit; following the spec (`updated_at`: timestamp of last write,
updated on every upsert), the inserted row records `now`. -/
def upsert (db : Db) (now : Nat) (path mime : String) (content : List Nat) : Db :=
  match dbLookup db path with
  | none => db ++ [⟨path, mime, now, content⟩]
  | some _ => db.map (fun r => if r.path = path then ⟨path, mime, now, content⟩ else r)

/-- The per-file store step of `add_path_into_database`
(src/db/file.rs lines 176-218): when a client is configured, upload the
bytes with the mime as content type and stage the sentinel as row
content, panicking (`none`) when the upload fails (line 191); otherwise
store the bytes inline; then upsert the row.  `uploadOk` says whether
the S3 `put_object` for this call succeeds. -/
def put (env : Env) (uploadOk : Bool) (now : Nat) (db : Db) (s3 : S3Store)
    (path mime : String) (bytes : List Nat) : Option (Db × S3Store) :=
  match s3_client env with
  | some _ =>
    if uploadOk then
      some (upsert db now path mime inS3, s3Put s3 path ⟨bytes, mime⟩)
    else
      none
  | none => some (upsert db now path mime bytes, s3)

/-- The mime fixup of src/db/file.rs lines 156-174: `magic` reports
`text/plain` for css and js files, so those extensions are overridden;
`ext` stands for `file_path.extension().unwrap_or_default()`. -/
def classify_mime (sniffed : String) (ext : String) : String :=
  if sniffed = "text/plain" then
    if ext = "css" then "text/css"
    else if ext = "js" then "application/javascript"
    else sniffed
  else sniffed

/-- What happened when the ingestion loop touched one file on disk:
`fs::File::open` failed (skipped, line 146), `read_to_end` failed
(propagated, line 149), or the bytes were read. -/
inductive FileAccess where
  | openFail
  | readFail
  | content (bytes : List Nat)
deriving DecidableEq, Repr

/-- One file produced by `get_file_list`, with its relative path, its
extension (`extension().unwrap_or_default()`) and its access outcome. -/
structure IngestFile where
  relPath : String
  ext : String
  access : FileAccess
deriving DecidableEq, Repr

/-- `Path::new(prefix).join(&file_path)` for a non-empty prefix and a
relative file path (src/db/file.rs lines 150-154). -/
def joinPath (pre rel : String) : String := pre ++ "/" ++ rel

/-- Outcome of one iteration of the ingestion loop
(src/db/file.rs lines 139-219) on one file. -/
inductive FileOutcome where
  | skip
  | fatal
  | stored (db : Db) (s3 : S3Store) (entry : String × String)
deriving Repr

/-- One iteration of the ingestion loop (src/db/file.rs lines 139-219):
skip the file when open fails (any error), abort on read failure or
sniffer failure, otherwise classify and `put`; a `put` panic (upload
failure with S3 configured) is fatal.  The stored entry is the
`(mime, file_path)` pair pushed on line 197. -/
def processFile (env : Env) (sniff : List Nat → Option String) (uploadOk : String → Bool)
    (now : Nat) (pre : String) (db : Db) (s3 : S3Store) (f : IngestFile) : FileOutcome :=
  match f.access with
  | .openFail => .skip
  | .readFail => .fatal
  | .content bytes =>
    match sniff bytes with
    | none => .fatal
    | some sniffed =>
      let mime := classify_mime sniffed f.ext
      let bpath := joinPath pre f.relPath
      match put env (uploadOk bpath) now db s3 bpath mime bytes with
      | none => .fatal
      | some (db', s3') => .stored db' s3' (mime, f.relPath)

/-- The ingestion loop over the file list, threading the staged table
state, the bucket state and the manifest; a fatal file aborts with the
bucket state reached so far (uploads are not undone by the relational
rollback). -/
def ingestLoop (env : Env) (sniff : List Nat → Option String) (uploadOk : String → Bool)
    (now : Nat) (pre : String) :
    List IngestFile → Db → S3Store → List (String × String) →
      Except S3Store (Db × S3Store × List (String × String))
  | [], db, s3, man => .ok (db, s3, man)
  | f :: fs, db, s3, man =>
    match processFile env sniff uploadOk now pre db s3 f with
    | .skip => ingestLoop env sniff uploadOk now pre fs db s3 man
    | .fatal => .error s3
    | .stored db' s3' e => ingestLoop env sniff uploadOk now pre fs db' s3' (man ++ [e])

/-- Result of `add_path_into_database`: a committed table plus manifest,
or an aborted run whose table is the rolled-back original. -/
inductive IngestResult where
  | ok (db : Db) (s3 : S3Store) (manifest : List (String × String))
  | fail (db : Db) (s3 : S3Store)
deriving DecidableEq, Repr

/-- `add_path_into_database` (src/db/file.rs lines 126-224): run the loop
inside one transaction; commit on success; on a fatal file the panic or
error drops the transaction, so the table reverts to its initial state
while completed uploads remain in the bucket.  The file list stands for
`get_file_list`, and `sniff` for the `magic` cookie. -/
def add_path_into_database (env : Env) (sniff : List Nat → Option String)
    (uploadOk : String → Bool) (now : Nat) (pre : String)
    (files : List IngestFile) (db : Db) (s3 : S3Store) : IngestResult :=
  match ingestLoop env sniff uploadOk now pre files db s3 [] with
  | .ok (db', s3', man) => .ok db' s3' man
  | .error s3' => .fail db s3'

/-- The manifest entry a file contributes when it is read and classified
successfully (the pair pushed on src/db/file.rs line 197). -/
def manifestEntry (sniff : List Nat → Option String) (f : IngestFile) :
    Option (String × String) :=
  match f.access with
  | .content bytes => (sniff bytes).map (fun s => (classify_mime s f.ext, f.relPath))
  | _ => none

/-- A file on which the ingestion loop aborts: read failure, sniffer
failure, or upload failure while S3 is configured
(src/db/file.rs lines 149, 157, 191). -/
def fatalFile (env : Env) (sniff : List Nat → Option String) (uploadOk : String → Bool)
    (pre : String) (f : IngestFile) : Prop :=
  f.access = .readFail ∨
    ∃ b, f.access = .content b ∧
      (sniff b = none ∨
        ((s3_client env).isSome = true ∧ uploadOk (joinPath pre f.relPath) = false))

/-- The batch selection of `move_to_s3` (src/db/file.rs lines 243-249):
`SELECT path, mime, content FROM files WHERE content != E'in-s3' LIMIT n`. -/
def selectInline (db : Db) (n : Nat) : List Row :=
  (db.filter (fun r => decide (r.content ≠ inS3))).take n

/-- `UPDATE files SET content = E'in-s3' WHERE path = $1`
(src/db/file.rs line 276). -/
def markRow (db : Db) (p : String) : Db :=
  db.map (fun r => if r.path = p then { r with content := inS3 } else r)

/-- Result of `move_to_s3`: the `expect` panic when no client is
configured (line 241), the upload panic (lines 268, 283) dropping the
transaction with the table unchanged, or a committed run. -/
inductive MigrateResult where
  | panicNoS3
  | panicUpload (db : Db) (s3 : S3Store)
  | ok (db : Db) (s3 : S3Store)
deriving DecidableEq, Repr

/-- `move_to_s3` (src/db/file.rs lines 239-290): require a configured
client (`expect`), select up to `n` inline rows, upload each with its
stored mime (the fan-out lets sibling uploads finish even when one
fails, so the bucket keeps every successful upload), and only when all
uploads succeeded flip each selected row to the sentinel and commit;
any upload failure panics before any UPDATE runs, dropping the
transaction. -/
def move_to_s3 (env : Env) (uploadOk : String → Bool) (n : Nat)
    (db : Db) (s3 : S3Store) : MigrateResult :=
  match s3_client env with
  | none => .panicNoS3
  | some _ =>
    let rows := selectInline db n
    let s3' := rows.foldl
      (fun acc r => if uploadOk r.path then s3Put acc r.path ⟨r.content, r.mime⟩ else acc) s3
    if rows.all (fun r => uploadOk r.path) then
      .ok (rows.foldl (fun acc r => markRow acc r.path) db) s3'
    else
      .panicUpload db s3'

/-! Lookup lemmas for the relational table and the bucket. -/

theorem s3Lookup_put_self (s3 : S3Store) (k : String) (o : S3Object) :
    s3Lookup (s3Put s3 k o) k = some o := by
  simp [s3Put, s3Lookup]

theorem s3Lookup_put_ne (s3 : S3Store) (k x : String) (o : S3Object) (h : k ≠ x) :
    s3Lookup (s3Put s3 k o) x = s3Lookup s3 x := by
  simp [s3Put, s3Lookup, h]

theorem dbLookup_append (db l : Db) (p : String) (h : dbLookup db p = none) :
    dbLookup (db ++ l) p = dbLookup l p := by
  induction db with
  | nil => simp
  | cons r t ih =>
    by_cases hp : r.path = p
    · simp [dbLookup, hp] at h
    · simp [dbLookup, hp] at h ⊢
      exact ih h

theorem dbLookup_append_ne (db : Db) (r : Row) (x : String) (h : r.path ≠ x) :
    dbLookup (db ++ [r]) x = dbLookup db x := by
  induction db with
  | nil => simp [dbLookup, h]
  | cons a t ih =>
    by_cases ha : a.path = x
    · simp [dbLookup, ha]
    · simp [dbLookup, ha, ih]

theorem dbLookup_map_set (db : Db) (p : String) (new : Row) (hnew : new.path = p) :
    dbLookup (db.map (fun r => if r.path = p then new else r)) p =
      (dbLookup db p).map (fun _ => new) := by
  induction db with
  | nil => simp [dbLookup]
  | cons r t ih =>
    by_cases hp : r.path = p
    · simp [dbLookup, hp, hnew]
    · simp [dbLookup, hp, ih]

theorem dbLookup_map_set_ne (db : Db) (p : String) (new : Row) (hnew : new.path = p)
    (x : String) (hx : x ≠ p) :
    dbLookup (db.map (fun r => if r.path = p then new else r)) x = dbLookup db x := by
  induction db with
  | nil => simp [dbLookup]
  | cons r t ih =>
    have hpx : ¬p = x := fun hh => hx hh.symm
    by_cases hr : r.path = x
    · simp [dbLookup, hr, hx]
    · by_cases hp : r.path = p
      · have hnx : ¬new.path = x := by rw [hnew]; exact hpx
        simp [dbLookup, hp, hr, hnx, hpx, ih]
      · simp [dbLookup, hp, hr, ih]

theorem lookup_upsert_self (db : Db) (now : Nat) (p m : String) (c : List Nat) :
    dbLookup (upsert db now p m c) p = some ⟨p, m, now, c⟩ := by
  unfold upsert
  cases h : dbLookup db p with
  | none =>
    rw [dbLookup_append db _ p h]
    simp [dbLookup]
  | some r =>
    rw [dbLookup_map_set db p _ rfl, h]
    rfl

theorem lookup_upsert_ne (db : Db) (now : Nat) (p m : String) (c : List Nat)
    (x : String) (hx : x ≠ p) :
    dbLookup (upsert db now p m c) x = dbLookup db x := by
  unfold upsert
  cases h : dbLookup db p with
  | none =>
    exact dbLookup_append_ne db _ x (fun hh => hx hh.symm)
  | some r =>
    exact dbLookup_map_set_ne db p _ rfl x hx

theorem upsert_length (db : Db) (now : Nat) (p m : String) (c : List Nat)
    (h : (dbLookup db p).isSome = true) :
    (upsert db now p m c).length = db.length := by
  unfold upsert
  cases hl : dbLookup db p with
  | none => rw [hl] at h; simp at h
  | some r => simp

/-- Claim C5: when the sniffer reports the generic plain-text type, the
classifier overrides extension css to text/css and js to
application/javascript; every other combination of sniffed type and
extension is returned unchanged. -/
theorem classify_mime_spec (s e : String) :
    (s = "text/plain" → e = "css" → classify_mime s e = "text/css") ∧
    (s = "text/plain" → e = "js" → classify_mime s e = "application/javascript") ∧
    (¬(s = "text/plain" ∧ (e = "css" ∨ e = "js")) → classify_mime s e = s) := by
  refine ⟨?_, ?_, ?_⟩
  · intro hs he; subst hs; subst he; decide
  · intro hs he; subst hs; subst he; decide
  · intro h
    by_cases hs : s = "text/plain"
    · by_cases hc : e = "css"
      · exact absurd ⟨hs, Or.inl hc⟩ h
      · by_cases hj : e = "js"
        · exact absurd ⟨hs, Or.inr hj⟩ h
        · simp [classify_mime, hs, hc, hj]
    · simp [classify_mime, hs]

/-- Witness for C5 at concrete inputs: both overrides fire, and a
non-plain-text sniff is returned unchanged. -/
theorem classify_mime_spec_witness :
    classify_mime "text/plain" "css" = "text/css" ∧
    classify_mime "text/plain" "js" = "application/javascript" ∧
    classify_mime "text/html" "js" = "text/html" :=
  ⟨(classify_mime_spec "text/plain" "css").1 rfl rfl,
   (classify_mime_spec "text/plain" "js").2.1 rfl rfl,
   (classify_mime_spec "text/html" "js").2.2 (by decide)⟩

/-- Claim C9: calling the migration worker in relational-only mode (no
AWS access key configured) panics at the `expect` on the S3 client,
whatever the batch size and store contents. -/
theorem move_to_s3_unconfigured (ep : Option String) (uploadOk : String → Bool)
    (n : Nat) (db : Db) (s3 : S3Store) :
    move_to_s3 ⟨none, ep⟩ uploadOk n db s3 = MigrateResult.panicNoS3 :=
  rfl

/-- Claim C7: a successful put stamps the written row with the write
time; an update replaces mime, payload and timestamp in place, leaves
every other path untouched and keeps the row count (no history). -/
theorem put_sets_timestamp (env : Env) (up : Bool) (now : Nat) (db : Db) (s3 : S3Store)
    (p m : String) (bytes : List Nat) (db' : Db) (s3' : S3Store)
    (h : put env up now db s3 p m bytes = some (db', s3')) :
    dbLookup db' p = some ⟨p, m, now, if (s3_client env).isSome then inS3 else bytes⟩ ∧
    (∀ x, x ≠ p → dbLookup db' x = dbLookup db x) ∧
    ((dbLookup db p).isSome = true → db'.length = db.length) := by
  unfold put at h
  cases hc : s3_client env with
  | none =>
    rw [hc] at h
    simp only [Option.some.injEq, Prod.mk.injEq] at h
    obtain ⟨hdb, hs3⟩ := h
    subst hdb
    exact ⟨by simp [hc, lookup_upsert_self],
           fun x hx => lookup_upsert_ne db now p m bytes x hx,
           fun hs => upsert_length db now p m bytes hs⟩
  | some c =>
    rw [hc] at h
    cases up with
    | false => simp at h
    | true =>
      simp only [if_pos, Option.some.injEq, Prod.mk.injEq] at h
      obtain ⟨hdb, hs3⟩ := h
      subst hdb
      exact ⟨by simp [hc, lookup_upsert_self],
             fun x hx => lookup_upsert_ne db now p m inS3 x hx,
             fun hs => upsert_length db now p m inS3 hs⟩

/-- Witness for C7: updating an existing row in relational-only mode. -/
theorem put_sets_timestamp_witness :
    dbLookup [⟨"p", "new", 5, [8]⟩] "p"
        = some ⟨"p", "new", 5, if (s3_client ⟨none, none⟩).isSome then inS3 else [8]⟩ ∧
    (∀ x, x ≠ "p" → dbLookup [⟨"p", "new", 5, [8]⟩] x = dbLookup [⟨"p", "old", 1, [7]⟩] x) ∧
    ((dbLookup [⟨"p", "old", 1, [7]⟩] "p").isSome = true →
      ([⟨"p", "new", 5, [8]⟩] : Db).length = ([⟨"p", "old", 1, [7]⟩] : Db).length) :=
  put_sets_timestamp ⟨none, none⟩ true 5 [⟨"p", "old", 1, [7]⟩] [] "p" "new" [8]
    [⟨"p", "new", 5, [8]⟩] [] (by decide)

/-- Claim C1 counterexample: in relational-only mode, putting exactly the
five sentinel bytes succeeds, but the following get does not return a
blob at all: the row looks offloaded, the client is absent, and the
`unwrap` on the fetch result panics. -/
theorem put_get_roundtrip_counterexample :
    put ⟨none, none⟩ true 0 [] [] "p" "text/plain" inS3
      = some ([⟨"p", "text/plain", 0, inS3⟩], []) ∧
    get_path ⟨none, none⟩ ⟨[⟨"p", "text/plain", 0, inS3⟩], []⟩ "p"
      = GetResult.panicked := by
  exact ⟨by decide, by decide⟩

/-- Claim C1 (amended): a successful put followed by get on the same path
returns a blob with exactly the put content type and bytes, in both the
offloaded and the inline tier, provided the bytes are not the five
sentinel bytes when object storage is unconfigured. -/
theorem put_then_get_roundtrip (env : Env) (up : Bool) (now : Nat) (db : Db) (s3 : S3Store)
    (p ct : String) (bytes : List Nat) (db' : Db) (s3' : S3Store)
    (hguard : s3_client env = none → bytes ≠ inS3)
    (h : put env up now db s3 p ct bytes = some (db', s3')) :
    ∃ t, get_path env ⟨db', s3'⟩ p = .blob ⟨p, ct, t, bytes⟩ := by
  unfold put at h
  cases hc : s3_client env with
  | none =>
    rw [hc] at h
    simp only [Option.some.injEq, Prod.mk.injEq] at h
    obtain ⟨hdb, hs3⟩ := h
    subst hdb; subst hs3
    exact ⟨now, by simp [get_path, lookup_upsert_self, hguard hc]⟩
  | some c =>
    rw [hc] at h
    cases up with
    | false => simp at h
    | true =>
      simp only [if_pos, Option.some.injEq, Prod.mk.injEq] at h
      obtain ⟨hdb, hs3⟩ := h
      subst hdb; subst hs3
      refine ⟨now, ?_⟩
      simp [get_path, lookup_upsert_self, hc, inS3, s3Lookup_put_self]

/-- Witness for C1 (amended): inline-tier round trip on non-sentinel
bytes. -/
theorem put_then_get_roundtrip_witness :
    (s3_client ⟨none, none⟩ = none → ([1, 2] : List Nat) ≠ inS3) ∧
    (∃ t, get_path ⟨none, none⟩ ⟨[⟨"p", "text/html", 0, [1, 2]⟩], []⟩ "p"
        = .blob ⟨"p", "text/html", t, [1, 2]⟩) :=
  ⟨by decide,
   put_then_get_roundtrip ⟨none, none⟩ true 0 [] [] "p" "text/html" [1, 2]
     [⟨"p", "text/html", 0, [1, 2]⟩] [] (by decide) (by decide)⟩

/-! Lemmas about batch selection, row marking and the upload fan-out. -/

theorem select_sublist (db : Db) (n : Nat) : List.Sublist (selectInline db n) db :=
  (List.take_sublist n _).trans (List.filter_sublist db)

theorem select_mem (db : Db) (n : Nat) {r : Row} (h : r ∈ selectInline db n) : r ∈ db :=
  (select_sublist db n).subset h

theorem select_paths_nodup (db : Db) (n : Nat) (h : (db.map Row.path).Nodup) :
    ((selectInline db n).map Row.path).Nodup :=
  List.Nodup.sublist ((select_sublist db n).map Row.path) h

theorem select_content_ne (db : Db) (n : Nat) {r : Row} (h : r ∈ selectInline db n) :
    r.content ≠ inS3 := by
  have h1 : r ∈ db.filter (fun r => decide (r.content ≠ inS3)) := List.take_subset n _ h
  exact of_decide_eq_true (List.mem_filter.mp h1).2

theorem row_eq_of_path_eq (db : Db) (hnd : (db.map Row.path).Nodup)
    (a b : Row) (ha : a ∈ db) (hb : b ∈ db) (hab : a.path = b.path) : a = b :=
  List.inj_on_of_nodup_map hnd ha hb hab

theorem dbLookup_self_of_nodup (db : Db) (hnd : (db.map Row.path).Nodup)
    (r : Row) (hr : r ∈ db) : dbLookup db r.path = some r := by
  induction db with
  | nil => cases hr
  | cons a t ih =>
    simp only [List.map_cons, List.nodup_cons] at hnd
    obtain ⟨hna, hndt⟩ := hnd
    rcases List.mem_cons.mp hr with rfl | hrt
    · simp [dbLookup]
    · have hne : a.path ≠ r.path := fun hh => hna (by
        rw [hh]; exact List.mem_map_of_mem Row.path hrt)
      simp [dbLookup, hne, ih hndt hrt]

theorem dbLookup_map_pathpres (f : Row → Row) (hf : ∀ r, (f r).path = r.path)
    (db : Db) (x : String) :
    dbLookup (db.map f) x = (dbLookup db x).map f := by
  induction db with
  | nil => rfl
  | cons r t ih =>
    by_cases hx : r.path = x
    · have hfx : (f r).path = x := by rw [hf r, hx]
      simp [dbLookup, hfx, hx]
    · have hfx : ¬(f r).path = x := by rw [hf r]; exact hx
      simp [dbLookup, hfx, hx, ih]

theorem dbLookup_markRow (db : Db) (p x : String) :
    dbLookup (markRow db p) x =
      (dbLookup db x).map (fun r => if r.path = p then { r with content := inS3 } else r) :=
  dbLookup_map_pathpres _ (fun r => by by_cases hp : r.path = p <;> simp [hp]) db x

theorem dbLookup_markFold (rows : List Row) (db : Db) (x : String) :
    dbLookup (rows.foldl (fun acc r => markRow acc r.path) db) x =
      (dbLookup db x).map
        (fun r => if r.path ∈ rows.map Row.path then { r with content := inS3 } else r) := by
  induction rows generalizing db with
  | nil =>
    cases h : dbLookup db x <;> simp [List.foldl_nil, h]
  | cons a t ih =>
    rw [List.foldl_cons, ih, dbLookup_markRow]
    cases dbLookup db x with
    | none => simp
    | some r =>
      simp only [Option.map_some', Option.some.injEq, List.map_cons, List.mem_cons]
      by_cases h1 : r.path = a.path
      · simp [h1]
      · simp [h1]

theorem s3_fold_lookup_notmem (uploadOk : String → Bool) (rows : List Row)
    (s3 : S3Store) (x : String) (hx : x ∉ rows.map Row.path) :
    s3Lookup (rows.foldl
        (fun acc r => if uploadOk r.path then s3Put acc r.path ⟨r.content, r.mime⟩ else acc) s3) x
      = s3Lookup s3 x := by
  induction rows generalizing s3 with
  | nil => rfl
  | cons a t ih =>
    simp only [List.map_cons, List.mem_cons, not_or] at hx
    obtain ⟨hx1, hx2⟩ := hx
    rw [List.foldl_cons, ih _ hx2]
    by_cases hu : uploadOk a.path
    · rw [if_pos hu, s3Lookup_put_ne _ _ _ _ (fun hh => hx1 hh.symm)]
    · rw [if_neg hu]

theorem s3_fold_lookup_mem (uploadOk : String → Bool) (rows : List Row)
    (s3 : S3Store) (hnd : (rows.map Row.path).Nodup)
    (hall : ∀ r ∈ rows, uploadOk r.path = true) (r : Row) (hr : r ∈ rows) :
    s3Lookup (rows.foldl
        (fun acc r => if uploadOk r.path then s3Put acc r.path ⟨r.content, r.mime⟩ else acc) s3)
        r.path
      = some ⟨r.content, r.mime⟩ := by
  induction rows generalizing s3 with
  | nil => cases hr
  | cons a t ih =>
    simp only [List.map_cons, List.nodup_cons] at hnd
    obtain ⟨hna, hndt⟩ := hnd
    rw [List.foldl_cons, if_pos (hall a (List.mem_cons_self a t))]
    rcases List.mem_cons.mp hr with rfl | hrt
    · rw [s3_fold_lookup_notmem uploadOk t _ r.path hna, s3Lookup_put_self]
    · exact ih _ hndt (fun q hq => hall q (List.mem_cons_of_mem a hq)) hrt

theorem markRow_proj (db : Db) (p : String) :
    (markRow db p).map (fun r => (r.path, r.mime, r.date_updated))
      = db.map (fun r => (r.path, r.mime, r.date_updated)) := by
  unfold markRow
  rw [List.map_map]
  exact List.map_congr_left (fun r _ => by
    by_cases hp : r.path = p <;> simp [Function.comp, hp])

theorem markFold_proj (rows : List Row) (db : Db) :
    ((rows.foldl (fun acc r => markRow acc r.path) db).map
        (fun r => (r.path, r.mime, r.date_updated)))
      = db.map (fun r => (r.path, r.mime, r.date_updated)) := by
  induction rows generalizing db with
  | nil => rfl
  | cons a t ih => rw [List.foldl_cons, ih, markRow_proj]

/-- Claim C8: a row whose stored bytes equal the sentinel is always
treated as offloaded by get: in relational-only mode the read panics, a
missing object also panics, a present object is returned as the payload,
and any blob that is returned carries the object-storage body, never the
inline sentinel bytes themselves. -/
theorem sentinel_content_offloaded (env : Env) (st : State) (p : String) (row : Row)
    (hrow : dbLookup st.db p = some row) (hsent : row.content = inS3) :
    (s3_client env = none → get_path env st p = .panicked) ∧
    (s3Lookup st.s3 p = none → get_path env st p = .panicked) ∧
    (∀ c o, s3_client env = some c → s3Lookup st.s3 p = some o →
      get_path env st p = .blob ⟨row.path, row.mime, row.date_updated, o.body⟩) ∧
    (∀ b, get_path env st p = .blob b → ∃ o, s3Lookup st.s3 p = some o ∧ b.content = o.body) := by
  have hg : get_path env st p =
      match (s3_client env).bind (fun _ => s3Lookup st.s3 p) with
      | some o => .blob ⟨row.path, row.mime, row.date_updated, o.body⟩
      | none => .panicked := by
    unfold get_path
    simp only [hrow]
    rw [if_pos hsent]
  refine ⟨?_, ?_, ?_, ?_⟩
  · intro hcn; rw [hg, hcn]; rfl
  · intro hl
    rw [hg]
    cases hcc : s3_client env <;> simp [hl]
  · intro c o hcc ho
    rw [hg, hcc]
    simp [ho]
  · intro b hb
    rw [hg] at hb
    cases hcc : s3_client env with
    | none => rw [hcc] at hb; simp at hb
    | some c =>
      rw [hcc] at hb
      cases ho : s3Lookup st.s3 p with
      | none => rw [ho] at hb; simp at hb
      | some o =>
        rw [ho] at hb
        refine ⟨o, rfl, ?_⟩
        simp only [Option.some_bind, GetResult.blob.injEq] at hb
        rw [← hb]

/-- Witness for C8: an inline row whose bytes are exactly the sentinel,
read in relational-only mode, panics instead of returning the bytes. -/
theorem sentinel_content_offloaded_witness :
    get_path ⟨none, none⟩ ⟨[⟨"q", "text/plain", 3, inS3⟩], []⟩ "q" = GetResult.panicked :=
  (sentinel_content_offloaded ⟨none, none⟩ ⟨[⟨"q", "text/plain", 3, inS3⟩], []⟩ "q"
      ⟨"q", "text/plain", 3, inS3⟩ (by decide) rfl).1 rfl

/-- Claim C6: a committed migration batch changes only the payload
column: every row keeps its path, mime and date_updated, in order. -/
theorem move_to_s3_frame (env : Env) (uploadOk : String → Bool) (n : Nat)
    (db : Db) (s3 : S3Store) (db' : Db) (s3' : S3Store)
    (h : move_to_s3 env uploadOk n db s3 = .ok db' s3') :
    db'.map (fun r => (r.path, r.mime, r.date_updated))
      = db.map (fun r => (r.path, r.mime, r.date_updated)) := by
  unfold move_to_s3 at h
  cases hc : s3_client env with
  | none => rw [hc] at h; simp at h
  | some c =>
    rw [hc] at h
    cases hall : (selectInline db n).all (fun r => uploadOk r.path) with
    | false => simp [hall] at h
    | true =>
      simp only [hall, if_true, MigrateResult.ok.injEq] at h
      obtain ⟨hdb, _⟩ := h
      rw [← hdb]
      exact markFold_proj _ db

/-- Witness for C6: one inline row migrated; only its content column
differs afterwards. -/
theorem move_to_s3_frame_witness :
    ([⟨"a", "text/html", 7, inS3⟩] : Db).map (fun r => (r.path, r.mime, r.date_updated))
      = ([⟨"a", "text/html", 7, [1, 2, 3]⟩] : Db).map
          (fun r => (r.path, r.mime, r.date_updated)) :=
  move_to_s3_frame ⟨some "k", none⟩ (fun _ => true) 1 [⟨"a", "text/html", 7, [1, 2, 3]⟩] []
    [⟨"a", "text/html", 7, inS3⟩] [("a", ⟨[1, 2, 3], "text/html"⟩)] (by decide)

/-- Claim C2: with S3 configured and unique paths, a batch in which every
upload succeeds commits with exactly the selected rows flipped to the
sentinel, each still retrievable via get with its prior mime and bytes,
and every unselected row untouched; a batch with any failing upload
aborts with the table unchanged. -/
theorem move_to_s3_batch (env : Env) (uploadOk : String → Bool) (n : Nat)
    (db : Db) (s3 : S3Store) (c : S3ClientHandle)
    (hc : s3_client env = some c)
    (hnodup : (db.map Row.path).Nodup) :
    ((∀ r ∈ selectInline db n, uploadOk r.path = true) →
      ∃ db' s3', move_to_s3 env uploadOk n db s3 = .ok db' s3' ∧
        (∀ r ∈ selectInline db n,
          dbLookup db' r.path = some ⟨r.path, r.mime, r.date_updated, inS3⟩ ∧
          get_path env ⟨db', s3'⟩ r.path = .blob ⟨r.path, r.mime, r.date_updated, r.content⟩) ∧
        (∀ q ∈ db, q ∉ selectInline db n → dbLookup db' q.path = some q)) ∧
    ((∃ r ∈ selectInline db n, uploadOk r.path = false) →
      ∃ s3', move_to_s3 env uploadOk n db s3 = .panicUpload db s3') := by
  constructor
  · intro hall
    have hallb : (selectInline db n).all (fun r => uploadOk r.path) = true :=
      List.all_eq_true.mpr hall
    refine ⟨(selectInline db n).foldl (fun acc r => markRow acc r.path) db,
            (selectInline db n).foldl
              (fun acc r => if uploadOk r.path then s3Put acc r.path ⟨r.content, r.mime⟩ else acc)
              s3,
            by simp [move_to_s3, hc, hallb], ?_, ?_⟩
    · intro r hr
      have hrdb : r ∈ db := select_mem db n hr
      have hlook : dbLookup db r.path = some r := dbLookup_self_of_nodup db hnodup r hrdb
      have hmemp : r.path ∈ (selectInline db n).map Row.path :=
        List.mem_map_of_mem Row.path hr
      have hmark : dbLookup ((selectInline db n).foldl (fun acc r => markRow acc r.path) db)
          r.path = some ⟨r.path, r.mime, r.date_updated, inS3⟩ := by
        rw [dbLookup_markFold, hlook, Option.map_some', if_pos hmemp]
      refine ⟨hmark, ?_⟩
      have hs3 : s3Lookup ((selectInline db n).foldl
            (fun acc r => if uploadOk r.path then s3Put acc r.path ⟨r.content, r.mime⟩ else acc)
            s3) r.path = some ⟨r.content, r.mime⟩ :=
        s3_fold_lookup_mem uploadOk (selectInline db n) s3
          (select_paths_nodup db n hnodup) hall r hr
      simp [get_path, hmark, hc, hs3]
    · intro q hq hqn
      have hqp : q.path ∉ (selectInline db n).map Row.path := by
        intro hmem
        obtain ⟨r, hrsel, hpath⟩ := List.mem_map.mp hmem
        have hrq : r = q :=
          row_eq_of_path_eq db hnodup r q (select_mem db n hrsel) hq hpath
        exact hqn (hrq ▸ hrsel)
      rw [dbLookup_markFold, dbLookup_self_of_nodup db hnodup q hq, Option.map_some',
        if_neg hqp]
  · rintro ⟨r, hr, hfalse⟩
    have hallb : (selectInline db n).all (fun r => uploadOk r.path) = false := by
      cases h : (selectInline db n).all (fun r => uploadOk r.path) with
      | true =>
        have hcontra := List.all_eq_true.mp h r hr
        rw [hfalse] at hcontra
        exact Bool.noConfusion hcontra
      | false => rfl
    exact ⟨(selectInline db n).foldl
        (fun acc r => if uploadOk r.path then s3Put acc r.path ⟨r.content, r.mime⟩ else acc) s3,
      by simp [move_to_s3, hc, hallb]⟩

/-- Witness for C2: a one-row batch with a succeeding upload commits and
stays retrievable. -/
theorem move_to_s3_batch_witness :
    ∃ db' s3', move_to_s3 ⟨some "k", none⟩ (fun _ => true) 2 [⟨"w", "text/css", 2, [9]⟩] []
        = .ok db' s3' ∧
      (∀ r ∈ selectInline [⟨"w", "text/css", 2, [9]⟩] 2,
        dbLookup db' r.path = some ⟨r.path, r.mime, r.date_updated, inS3⟩ ∧
        get_path ⟨some "k", none⟩ ⟨db', s3'⟩ r.path
          = .blob ⟨r.path, r.mime, r.date_updated, r.content⟩) ∧
      (∀ q ∈ ([⟨"w", "text/css", 2, [9]⟩] : Db), q ∉ selectInline [⟨"w", "text/css", 2, [9]⟩] 2 →
        dbLookup db' q.path = some q) :=
  (move_to_s3_batch ⟨some "k", none⟩ (fun _ => true) 2 [⟨"w", "text/css", 2, [9]⟩] []
      ⟨Region.usWest1⟩ rfl (by decide)).1 (by decide)

/-! Lemmas about single ingestion steps and the ingestion loop. -/

theorem put_db_eq (env : Env) (up : Bool) (now : Nat) (db : Db) (s3 : S3Store)
    (p m : String) (bytes : List Nat) (db' : Db) (s3' : S3Store)
    (h : put env up now db s3 p m bytes = some (db', s3')) :
    db' = upsert db now p m (if (s3_client env).isSome then inS3 else bytes) := by
  unfold put at h
  cases hc : s3_client env with
  | none =>
    rw [hc] at h
    simp only [Option.some.injEq, Prod.mk.injEq] at h
    simp [hc, ← h.1]
  | some c =>
    rw [hc] at h
    cases up with
    | false => simp at h
    | true =>
      simp only [if_pos, Option.some.injEq, Prod.mk.injEq] at h
      simp [hc, ← h.1]

theorem processFile_skip_openFail (env : Env) (sniff : List Nat → Option String)
    (uploadOk : String → Bool) (now : Nat) (pre : String) (db : Db) (s3 : S3Store)
    (f : IngestFile) (h : processFile env sniff uploadOk now pre db s3 f = .skip) :
    f.access = .openFail := by
  cases ha : f.access with
  | openFail => rfl
  | readFail => simp [processFile, ha] at h
  | content bytes =>
    cases hs : sniff bytes with
    | none => simp [processFile, ha, hs] at h
    | some s =>
      cases hput : put env (uploadOk (joinPath pre f.relPath)) now db s3
          (joinPath pre f.relPath) (classify_mime s f.ext) bytes with
      | none => simp [processFile, ha, hs, hput] at h
      | some pr => simp [processFile, ha, hs, hput] at h

theorem processFile_fatal_iff (env : Env) (sniff : List Nat → Option String)
    (uploadOk : String → Bool) (now : Nat) (pre : String) (db : Db) (s3 : S3Store)
    (f : IngestFile) :
    processFile env sniff uploadOk now pre db s3 f = .fatal ↔
      fatalFile env sniff uploadOk pre f := by
  cases ha : f.access with
  | openFail => simp [processFile, ha, fatalFile]
  | readFail => simp [processFile, ha, fatalFile]
  | content bytes =>
    cases hs : sniff bytes with
    | none => simp [processFile, ha, hs, fatalFile]
    | some s =>
      cases hc : s3_client env with
      | none => simp [processFile, ha, hs, fatalFile, put, hc]
      | some c =>
        cases hu : uploadOk (joinPath pre f.relPath) with
        | false => simp [processFile, ha, hs, fatalFile, put, hc, hu]
        | true => simp [processFile, ha, hs, fatalFile, put, hc, hu]

theorem processFile_stored_spec (env : Env) (sniff : List Nat → Option String)
    (uploadOk : String → Bool) (now : Nat) (pre : String) (db : Db) (s3 : S3Store)
    (f : IngestFile) (db' : Db) (s3' : S3Store) (e : String × String)
    (h : processFile env sniff uploadOk now pre db s3 f = .stored db' s3' e) :
    manifestEntry sniff f = some e ∧
    (∀ x, x ≠ joinPath pre f.relPath → dbLookup db' x = dbLookup db x) ∧
    (∃ b, f.access = FileAccess.content b) := by
  cases ha : f.access with
  | openFail => simp [processFile, ha] at h
  | readFail => simp [processFile, ha] at h
  | content bytes =>
    cases hs : sniff bytes with
    | none => simp [processFile, ha, hs] at h
    | some s =>
      cases hput : put env (uploadOk (joinPath pre f.relPath)) now db s3
          (joinPath pre f.relPath) (classify_mime s f.ext) bytes with
      | none => simp [processFile, ha, hs, hput] at h
      | some pr =>
        obtain ⟨db1, s31⟩ := pr
        simp only [processFile, ha, hs, hput, FileOutcome.stored.injEq] at h
        obtain ⟨hdb, hs3, he⟩ := h
        subst hdb
        refine ⟨by simp [manifestEntry, ha, hs, ← he], ?_, ⟨bytes, rfl⟩⟩
        intro x hx
        rw [put_db_eq env _ now db s3 _ _ bytes db1 s31 hput]
        exact lookup_upsert_ne db now _ _ _ x hx

theorem exists_cons_iff_of_not_head {α : Type} {P : α → Prop} {f : α} {t : List α}
    (hnf : ¬P f) : (∃ g ∈ f :: t, P g) ↔ ∃ g ∈ t, P g := by
  constructor
  · rintro ⟨g, hg, hPg⟩
    rcases List.mem_cons.mp hg with rfl | hgt
    · exact absurd hPg hnf
    · exact ⟨g, hgt, hPg⟩
  · rintro ⟨g, hg, hPg⟩
    exact ⟨g, List.mem_cons_of_mem f hg, hPg⟩

theorem ingestLoop_error_iff (env : Env) (sniff : List Nat → Option String)
    (uploadOk : String → Bool) (now : Nat) (pre : String) (fs : List IngestFile)
    (db : Db) (s3 : S3Store) (man : List (String × String)) :
    (∃ s3', ingestLoop env sniff uploadOk now pre fs db s3 man = .error s3') ↔
      ∃ f ∈ fs, fatalFile env sniff uploadOk pre f := by
  induction fs generalizing db s3 man with
  | nil => simp [ingestLoop]
  | cons f t ih =>
    cases hp : processFile env sniff uploadOk now pre db s3 f with
    | skip =>
      have hnf : ¬fatalFile env sniff uploadOk pre f := by
        rw [← processFile_fatal_iff env sniff uploadOk now pre db s3 f, hp]
        simp
      rw [show ingestLoop env sniff uploadOk now pre (f :: t) db s3 man
            = ingestLoop env sniff uploadOk now pre t db s3 man from by
          simp [ingestLoop, hp]]
      rw [ih db s3 man, Iff.comm]
      exact exists_cons_iff_of_not_head hnf
    | fatal =>
      constructor
      · intro _
        exact ⟨f, List.mem_cons_self f t,
          (processFile_fatal_iff env sniff uploadOk now pre db s3 f).mp hp⟩
      · intro _
        exact ⟨s3, by simp [ingestLoop, hp]⟩
    | stored db1 s31 e =>
      have hnf : ¬fatalFile env sniff uploadOk pre f := by
        rw [← processFile_fatal_iff env sniff uploadOk now pre db s3 f, hp]
        simp
      rw [show ingestLoop env sniff uploadOk now pre (f :: t) db s3 man
            = ingestLoop env sniff uploadOk now pre t db1 s31 (man ++ [e]) from by
          simp [ingestLoop, hp]]
      rw [ih db1 s31 (man ++ [e]), Iff.comm]
      exact exists_cons_iff_of_not_head hnf

theorem ingestLoop_ok_spec (env : Env) (sniff : List Nat → Option String)
    (uploadOk : String → Bool) (now : Nat) (pre : String) (fs : List IngestFile)
    (db : Db) (s3 : S3Store) (man man' : List (String × String)) (db' : Db) (s3' : S3Store)
    (h : ingestLoop env sniff uploadOk now pre fs db s3 man = .ok (db', s3', man')) :
    man' = man ++ fs.filterMap (manifestEntry sniff) ∧
    ∀ p, dbLookup db' p ≠ dbLookup db p →
      ∃ f ∈ fs, (∃ b, f.access = FileAccess.content b) ∧ p = joinPath pre f.relPath := by
  induction fs generalizing db s3 man with
  | nil =>
    simp only [ingestLoop, Except.ok.injEq, Prod.mk.injEq] at h
    obtain ⟨hdb, hs3, hman⟩ := h
    subst hdb
    refine ⟨by rw [← hman]; simp, ?_⟩
    intro p hp
    exact absurd rfl hp
  | cons f t ih =>
    cases hp : processFile env sniff uploadOk now pre db s3 f with
    | skip =>
      rw [show ingestLoop env sniff uploadOk now pre (f :: t) db s3 man
            = ingestLoop env sniff uploadOk now pre t db s3 man from by
          simp [ingestLoop, hp]] at h
      obtain ⟨hman, hch⟩ := ih db s3 man h
      have hentry : manifestEntry sniff f = none := by
        have ha := processFile_skip_openFail env sniff uploadOk now pre db s3 f hp
        simp [manifestEntry, ha]
      refine ⟨by rw [hman]; simp [List.filterMap_cons, hentry], ?_⟩
      intro p hne
      obtain ⟨g, hg, hcg, hpg⟩ := hch p hne
      exact ⟨g, List.mem_cons_of_mem f hg, hcg, hpg⟩
    | fatal =>
      rw [show ingestLoop env sniff uploadOk now pre (f :: t) db s3 man
            = .error s3 from by simp [ingestLoop, hp]] at h
      simp at h
    | stored db1 s31 e =>
      rw [show ingestLoop env sniff uploadOk now pre (f :: t) db s3 man
            = ingestLoop env sniff uploadOk now pre t db1 s31 (man ++ [e]) from by
          simp [ingestLoop, hp]] at h
      obtain ⟨hman, hch⟩ := ih db1 s31 (man ++ [e]) h
      obtain ⟨hentry, hlocal, hcont⟩ :=
        processFile_stored_spec env sniff uploadOk now pre db s3 f db1 s31 e hp
      constructor
      · rw [hman]
        simp [List.filterMap_cons, hentry]
      · intro p hne
        by_cases hpb : p = joinPath pre f.relPath
        · exact ⟨f, List.mem_cons_self f t, hcont, hpb⟩
        · have h1 : dbLookup db1 p = dbLookup db p := hlocal p hpb
          by_cases h2 : dbLookup db' p = dbLookup db1 p
          · exact absurd (h2.trans h1) hne
          · obtain ⟨g, hg, hcg, hpg⟩ := hch p h2
            exact ⟨g, List.mem_cons_of_mem f hg, hcg, hpg⟩

theorem ingestLoop_skip_middle (env : Env) (sniff : List Nat → Option String)
    (uploadOk : String → Bool) (now : Nat) (pre : String) (f : IngestFile)
    (hopen : f.access = .openFail) (fs1 fs2 : List IngestFile)
    (db : Db) (s3 : S3Store) (man : List (String × String)) :
    ingestLoop env sniff uploadOk now pre (fs1 ++ f :: fs2) db s3 man
      = ingestLoop env sniff uploadOk now pre (fs1 ++ fs2) db s3 man := by
  induction fs1 generalizing db s3 man with
  | nil =>
    have hp : processFile env sniff uploadOk now pre db s3 f = .skip := by
      simp [processFile, hopen]
    simp [ingestLoop, hp]
  | cons a t ih =>
    simp only [List.cons_append, ingestLoop]
    cases hp : processFile env sniff uploadOk now pre db s3 a with
    | skip => simp [hp, ih]
    | fatal => simp [hp]
    | stored db1 s31 e => simp [hp, ih]

/-- Claim C3: ingestion commits only when no file fails fatally; a fatal
file (read, classify, or upload failure with S3 configured) makes the run
abort, and every abort leaves the table exactly as it was — no partial
tree is visible. -/
theorem add_path_transactional (env : Env) (sniff : List Nat → Option String)
    (uploadOk : String → Bool) (now : Nat) (pre : String)
    (files : List IngestFile) (db : Db) (s3 : S3Store) :
    ((∃ f ∈ files, fatalFile env sniff uploadOk pre f) ↔
      ∃ s3', add_path_into_database env sniff uploadOk now pre files db s3 = .fail db s3') ∧
    (∀ d s3', add_path_into_database env sniff uploadOk now pre files db s3 = .fail d s3' →
      d = db) := by
  constructor
  · rw [← ingestLoop_error_iff env sniff uploadOk now pre files db s3 []]
    unfold add_path_into_database
    cases hres : ingestLoop env sniff uploadOk now pre files db s3 [] with
    | ok triple =>
      obtain ⟨db1, s31, man⟩ := triple
      simp
    | error s3e => simp
  · intro d s3' h
    unfold add_path_into_database at h
    cases hres : ingestLoop env sniff uploadOk now pre files db s3 [] with
    | ok triple =>
      rw [hres] at h
      obtain ⟨db1, s31, man⟩ := triple
      simp at h
    | error s3e =>
      rw [hres] at h
      simp only [IngestResult.fail.injEq] at h
      exact h.1.symm

/-- Witness for C3: a run containing a file whose read fails aborts with
the table unchanged. -/
theorem add_path_transactional_witness :
    ∃ s3', add_path_into_database ⟨none, none⟩ (fun _ => some "text/plain") (fun _ => true) 0
        "rustdoc" [⟨"x", "", FileAccess.readFail⟩] [⟨"z", "text/html", 1, [4]⟩] []
      = .fail [⟨"z", "text/html", 1, [4]⟩] s3' :=
  (add_path_transactional ⟨none, none⟩ (fun _ => some "text/plain") (fun _ => true) 0 "rustdoc"
      [⟨"x", "", FileAccess.readFail⟩] [⟨"z", "text/html", 1, [4]⟩] []).1.mp
    ⟨⟨"x", "", FileAccess.readFail⟩, List.mem_cons_self _ _, Or.inl rfl⟩

/-- Claim C4: a committed ingestion returns exactly one (mime, relative
path) manifest entry per successfully read file, in processing order,
and only the keys of those files can differ in the table. -/
theorem add_path_manifest (env : Env) (sniff : List Nat → Option String)
    (uploadOk : String → Bool) (now : Nat) (pre : String) (files : List IngestFile)
    (db : Db) (s3 : S3Store) (db' : Db) (s3' : S3Store) (man : List (String × String))
    (h : add_path_into_database env sniff uploadOk now pre files db s3 = .ok db' s3' man) :
    man = files.filterMap (manifestEntry sniff) ∧
    ∀ p, dbLookup db' p ≠ dbLookup db p →
      ∃ f ∈ files, (∃ b, f.access = FileAccess.content b) ∧ p = joinPath pre f.relPath := by
  unfold add_path_into_database at h
  cases hres : ingestLoop env sniff uploadOk now pre files db s3 [] with
  | error s3e => rw [hres] at h; simp at h
  | ok triple =>
    obtain ⟨db1, s31, man1⟩ := triple
    rw [hres] at h
    simp only [IngestResult.ok.injEq] at h
    obtain ⟨h1, h2, h3⟩ := h
    subst h1
    subst h3
    obtain ⟨hman, hch⟩ :=
      ingestLoop_ok_spec env sniff uploadOk now pre files db s3 [] man1 db1 s31 hres
    exact ⟨by rw [hman]; simp, hch⟩

/-- Witness for C4: one unopenable and two readable files give a
two-entry manifest in processing order. -/
theorem add_path_manifest_witness :
    ([("text/css", "a.css"), ("text/plain", "b")] : List (String × String))
      = List.filterMap (manifestEntry (fun _ => some "text/plain"))
          [⟨"locked", "lock", FileAccess.openFail⟩, ⟨"a.css", "css", FileAccess.content [10]⟩,
            ⟨"b", "", FileAccess.content [11]⟩] :=
  (add_path_manifest ⟨none, none⟩ (fun _ => some "text/plain") (fun _ => true) 2 "crate"
      [⟨"locked", "lock", FileAccess.openFail⟩, ⟨"a.css", "css", FileAccess.content [10]⟩,
        ⟨"b", "", FileAccess.content [11]⟩] [] []
      [⟨"crate/a.css", "text/css", 2, [10]⟩, ⟨"crate/b", "text/plain", 2, [11]⟩] []
      [("text/css", "a.css"), ("text/plain", "b")] (by decide)).1

/-- Claim C10: a file whose open fails, for any reason, is silently
skipped — the run on the list with that file equals the run on the list
without it — whereas a file whose read fails after opening aborts the
whole ingestion with the table rolled back. -/
theorem open_fail_skipped_read_fail_aborts (env : Env) (sniff : List Nat → Option String)
    (uploadOk : String → Bool) (now : Nat) (pre : String) (fs1 fs2 : List IngestFile)
    (f g : IngestFile) (db : Db) (s3 : S3Store) (files : List IngestFile)
    (hopen : f.access = .openFail) (hread : g.access = .readFail) (hg : g ∈ files) :
    (add_path_into_database env sniff uploadOk now pre (fs1 ++ f :: fs2) db s3
      = add_path_into_database env sniff uploadOk now pre (fs1 ++ fs2) db s3) ∧
    (∃ s3', add_path_into_database env sniff uploadOk now pre files db s3 = .fail db s3') := by
  constructor
  · unfold add_path_into_database
    rw [ingestLoop_skip_middle env sniff uploadOk now pre f hopen fs1 fs2 db s3 []]
  · have hfat : ∃ f ∈ files, fatalFile env sniff uploadOk pre f := ⟨g, hg, Or.inl hread⟩
    rw [← ingestLoop_error_iff env sniff uploadOk now pre files db s3 []] at hfat
    obtain ⟨s3', hs3⟩ := hfat
    unfold add_path_into_database
    rw [hs3]
    exact ⟨s3', rfl⟩

/-- Witness for C10: skipping an unopenable file leaves the run
unchanged; a read failure aborts with the original table. -/
theorem open_fail_skipped_read_fail_aborts_witness :
    (add_path_into_database ⟨none, none⟩ (fun _ => some "text/plain") (fun _ => true) 3 "doc"
        [⟨"a", "", FileAccess.openFail⟩, ⟨"b", "", FileAccess.content [1]⟩] [] []
      = add_path_into_database ⟨none, none⟩ (fun _ => some "text/plain") (fun _ => true) 3 "doc"
          [⟨"b", "", FileAccess.content [1]⟩] [] []) ∧
    (∃ s3', add_path_into_database ⟨none, none⟩ (fun _ => some "text/plain") (fun _ => true) 3
        "doc" [⟨"c", "", FileAccess.readFail⟩] [] [] = .fail [] s3') :=
  open_fail_skipped_read_fail_aborts ⟨none, none⟩ (fun _ => some "text/plain") (fun _ => true) 3
    "doc" [] [⟨"b", "", FileAccess.content [1]⟩] ⟨"a", "", FileAccess.openFail⟩
    ⟨"c", "", FileAccess.readFail⟩ [] [] [⟨"c", "", FileAccess.readFail⟩]
    rfl rfl (List.mem_cons_self _ _)

end DocsRs
